import Mathlib

/-!
Shallow embedding of the Dab search engine core (src/index.js): the link
graph index, the crawler, the rank engine, the persistence mirror and the
delivery queue, together with proofs of the spec's testable properties.

JS objects with string keys are modelled as insertion-ordered association
lists; the JS `Set` of visited URLs as a list queried by membership; the
`broadcastQueue` as a list consumed from the front; WebSocket clients as
records carrying an open flag and the sequence of messages sent to them.
The external collaborators (axios fetch + cheerio extraction) are modelled
as an oracle `String → Option Page`, where `none` stands for a fetch or
extraction failure (the `catch` branch of `crawl`).
-/

/-- The "http" scheme test string used by the crawler's link filter. -/
def httpPrefix : String := "http"

/-- The fallback title used when a page's title extraction yields an empty
(falsy) string. -/
def noTitle : String := "No title"

/-- One entry of `indexedUrls`: `{ title, links, rank }` as built by `crawl`
and rewritten by `recalculateRanks`. -/
structure PageRecord where
  title : String
  links : List String
  rank : Nat
deriving DecidableEq, Repr

/-- The `indexedUrls` object: a JS object with string keys, modelled as an
insertion-ordered association list with unique keys. -/
abbrev LinkGraphIndex := List (String × PageRecord)

/-- JS property read `indexedUrls[url]`: the record stored under `url`, or
`none` (`undefined`) when the key is absent. -/
def lookupRecord : LinkGraphIndex → String → Option PageRecord
  | [], _ => none
  | e :: rest, u => if e.1 = u then some e.2 else lookupRecord rest u

/-- JS property write `indexedUrls[url] = record`: overwrite in place when
the key exists (JS keeps the original key position), append otherwise. -/
def putRecord (idx : LinkGraphIndex) (url : String) (r : PageRecord) : LinkGraphIndex :=
  if idx.any (fun e => e.1 = url) then
    idx.map (fun e => if e.1 = url then (url, r) else e)
  else
    idx ++ [(url, r)]

/-- What the fetch/extract collaborator returns for one page: the text of the
`<title>` element (empty when there is none) and the `href` attribute of each
`<a>` anchor in document order (`none` when the attribute is missing). -/
structure Page where
  title : String
  anchors : List (Option String)
deriving DecidableEq, Repr

/-- The fetch/extract collaborator: `none` models the `catch` branch (network
failure or unparsable response). -/
abbrev FetchFn := String → Option Page

/-- Title extraction `$("title").text() || "No title"`: an empty extracted
title is falsy in JS, so it falls back to the default. -/
def extractTitle (p : Page) : String :=
  if p.title = "" then noTitle else p.title

/-- JS `String.prototype.startsWith(pre)`: the code units of `pre` form an
initial segment of the receiver's code units. -/
def jsStartsWith (s pre : String) : Bool :=
  pre.toList.isPrefixOf s.toList

/-- Link extraction: `$('a').each(...)` keeps each anchor's `href` when it is
truthy and starts with "http". A missing `href` (`none`) is falsy; the empty
string is also falsy in JS, and it equally fails `startsWith("http")`, so the
single filter below is exact. Kept hrefs stay in discovery order and
duplicates are retained. -/
def extractLinks (p : Page) : List String :=
  p.anchors.filterMap (fun href =>
    match href with
    | none => none
    | some h => if jsStartsWith h httpPrefix then some h else none)

/-- One message written to a viewer's socket: `{ url, data }`, where `data`
is `indexedUrls[url]` and may be `undefined` (`none`). -/
structure Msg where
  url : String
  data : Option PageRecord
deriving DecidableEq, Repr

/-- One WebSocket client: whether `readyState === WebSocket.OPEN`, and the
sequence of messages sent to it so far. -/
structure Client where
  isOpen : Bool
  received : List Msg
deriving DecidableEq, Repr

/-- The process's shared mutable state: `visited`, `indexedUrls`, the parsed
image of `data.json` (`none` before the first save), `broadcastQueue`,
`isBroadcasting`, `clients`, the `console.error` log of failed crawls (the
offending URLs), and the trace of URLs for which a fetch was attempted. -/
structure SysState where
  visited : List String
  index : LinkGraphIndex
  saved : Option LinkGraphIndex
  broadcastQueue : List String
  isBroadcasting : Bool
  clients : List Client
  errors : List String
  fetched : List String
deriving DecidableEq, Repr

/-- `client.send(...)` guarded by the open check of the drain loop and of the
replay loop: closed clients are skipped. -/
def sendTo (m : Msg) (c : Client) : Client :=
  if c.isOpen then { c with received := c.received ++ [m] } else c

/-- `broadcast(url)`: push the URL (only the URL — no record snapshot is
taken) onto the queue and make sure the drain interval is running. -/
def broadcast (s : SysState) (url : String) : SysState :=
  { s with broadcastQueue := s.broadcastQueue ++ [url], isBroadcasting := true }

/-- One firing of the drain interval: if the queue is non-empty, shift the
oldest URL and send `{ url, data: indexedUrls[url] }` — the record as stored
at drain time — to every open client; otherwise clear `isBroadcasting`. -/
def drainTick (s : SysState) : SysState :=
  match s.broadcastQueue with
  | [] => { s with isBroadcasting := false }
  | u :: rest =>
      { s with
        broadcastQueue := rest,
        clients := s.clients.map (sendTo ⟨u, lookupRecord s.index u⟩) }

/-- `n` consecutive firings of the drain interval. -/
def drainTicks : Nat → SysState → SysState
  | 0, s => s
  | n + 1, s => drainTicks n (drainTick s)

/-- The messages a queue of URLs produces when drained against a fixed
index: one `{ url, data }` per URL, in queue order. -/
def deliveries (idx : LinkGraphIndex) (q : List String) : List Msg :=
  q.map (fun u => ⟨u, lookupRecord idx u⟩)

/-- The effect of draining the whole queue `q` on one client: open clients
receive every message in order, closed clients are untouched. -/
def deliverClient (idx : LinkGraphIndex) (q : List String) (c : Client) : Client :=
  if c.isOpen then { c with received := c.received ++ deliveries idx q } else c

/-- The replay loop of the connection handler: one message per key of
`indexedUrls`, each sent only when the socket is open. -/
def replayMessages (idx : LinkGraphIndex) (isOpen : Bool) : List Msg :=
  if isOpen then idx.map (fun e => ⟨e.1, lookupRecord idx e.1⟩) else []

/-- `wss.on('connection')`: register the channel, then replay every current
PageRecord to it. -/
def handleConnection (s : SysState) (c : Client) : SysState :=
  { s with
    clients :=
      s.clients ++ [{ c with received := c.received ++ replayMessages s.index c.isOpen }] }

/-- `crawl(url, depth)`. Depth 0 and already-visited URLs are no-ops. A call
marks the URL visited, attempts the fetch; on failure it only logs the URL;
on success it writes `{ title, links, rank: 0 }` into the index, saves the
whole index to `data.json`, enqueues the URL for broadcast and crawls every
extracted link at `depth - 1` (the concurrent `Promise.all` fan-out is
modelled as a left-to-right fold). -/
def crawl (fetch : FetchFn) : Nat → String → SysState → SysState
  | 0, _, s => s
  | d + 1, url, s =>
    if s.visited.contains url then s
    else
      let s1 := { s with visited := s.visited ++ [url], fetched := s.fetched ++ [url] }
      match fetch url with
      | none => { s1 with errors := s1.errors ++ [url] }
      | some page =>
          let links := extractLinks page
          let record : PageRecord := ⟨extractTitle page, links, 0⟩
          let s2 := { s1 with index := putRecord s1.index url record }
          let s3 := { s2 with saved := some s2.index }
          let s4 := broadcast s3 url
          links.foldl (fun st l => crawl fetch d l st) s4

/-- The number of pages whose `links` array contains `url` — the membership
test `page.links.includes(url)` is duplicate-insensitive. -/
def backlinkCount (idx : LinkGraphIndex) (url : String) : Nat :=
  idx.countP (fun e => e.2.links.contains url)

/-- `recalculateRanks()`: for every key, set its rank to 10 per page whose
`links` contains it. The JS loop mutates ranks while iterating, but the
membership test reads only `links`, which the loop never touches, so the
result equals this snapshot-style map. -/
def recalculateRanks (idx : LinkGraphIndex) : LinkGraphIndex :=
  idx.map (fun e => (e.1, { e.2 with rank := 10 * backlinkCount idx e.1 }))

/-- The JSON documents the persistence mirror reads and writes: the subset of
JSON reachable from `JSON.stringify` on `indexedUrls` (strings, non-negative
integers, arrays, objects with ordered fields). -/
inductive Json where
  | str : String → Json
  | num : Nat → Json
  | arr : List Json → Json
  | obj : List (String × Json) → Json

/-- `JSON.stringify` of one PageRecord: the fields in their creation order. -/
def recordToJson (r : PageRecord) : Json :=
  Json.obj
    [("title", Json.str r.title),
     ("links", Json.arr (r.links.map Json.str)),
     ("rank", Json.num r.rank)]

/-- `save`: `JSON.stringify(indexedUrls)` — one object field per index entry,
in insertion order (which both `JSON.stringify` and `JSON.parse` preserve for
string keys). -/
def saveIndex (idx : LinkGraphIndex) : Json :=
  Json.obj (idx.map (fun e => (e.1, recordToJson e.2)))

/-- Decode a JSON array of strings back into a `links` list. -/
def strListFromJson : List Json → Option (List String)
  | [] => some []
  | Json.str s :: rest => (strListFromJson rest).map (fun l => s :: l)
  | _ => none

/-- Decode one persisted PageRecord (the shape `saveIndex` writes). -/
def recordFromJson : Json → Option PageRecord
  | Json.obj [("title", Json.str t), ("links", Json.arr ls), ("rank", Json.num n)] =>
      (strListFromJson ls).map (fun links => ⟨t, links, n⟩)
  | _ => none

/-- Decode the persisted object's fields in order. -/
def entriesFromJson : List (String × Json) → Option LinkGraphIndex
  | [] => some []
  | (u, j) :: rest =>
      match recordFromJson j, entriesFromJson rest with
      | some r, some tail => some ((u, r) :: tail)
      | _, _ => none

/-- `load`: parse the durable document back into a link graph index. -/
def loadIndex : Json → Option LinkGraphIndex
  | Json.obj fields => entriesFromJson fields
  | _ => none

/-- Startup log line for a successful load of `data.json`. -/
def msgLoaded : String := "Data loaded from data.json"

/-- Startup log line when `JSON.parse` throws on `data.json`. -/
def msgLoadError : String := "Error loading data from data.json"

/-- Startup log line when `data.json` does not exist. -/
def msgNotFound : String := "data.json not found. Starting with an empty index."

/-- The startup load (lines 35-51 of src/index.js). The argument models the
durable document: `none` when `data.json` does not exist, `some none` when it
exists but `JSON.parse` throws, `some (some j)` when it parses to `j` (JS
performs no shape validation on the parsed value; documents are the shape
`saveIndex` writes). Returns the resulting `indexedUrls` and the log line. -/
def startupLoad (doc : Option (Option Json)) : LinkGraphIndex × List String :=
  match doc with
  | none => ([], [msgNotFound])
  | some none => ([], [msgLoadError])
  | some (some j) => ((loadIndex j).getD [], [msgLoaded])

/-- The process's initial state: everything empty, nothing loaded yet. -/
def initState : SysState := ⟨[], [], none, [], false, [], [], []⟩

/-- Seed URL of the fetch-failure demonstration graph. -/
def seedUrl : String := "http://seed"

/-- The reachable URL of the demonstration graph. -/
def goodUrl : String := "http://good"

/-- The unreachable URL of the demonstration graph. -/
def badUrl : String := "http://bad"

/-- A concrete fetch/extract oracle: the seed page links to one reachable and
one unreachable URL; fetching the unreachable URL fails; the reachable page
carries one href-less anchor and one relative link. -/
def demoFetch : FetchFn := fun u =>
  if u = seedUrl then some ⟨"Seed", [some goodUrl, some badUrl]⟩
  else if u = goodUrl then some ⟨"Good", [none, some "/relative"]⟩
  else none

/-- An oracle under which every fetch succeeds with a link-free page. -/
def soloFetch : FetchFn := fun _ => some ⟨"Solo", []⟩

/-- The three-page snapshot of the spec's rank example: P1 links to P2, P2 to
P3, P3 to P2. -/
def graph3 : LinkGraphIndex :=
  [("P1", ⟨"t1", ["P2"], 0⟩), ("P2", ⟨"t2", ["P3"], 0⟩), ("P3", ⟨"t3", ["P2"], 0⟩)]

/-- All links of a record passed the crawler's filter. -/
def LinksOk (r : PageRecord) : Prop :=
  ∀ l ∈ r.links, jsStartsWith l httpPrefix = true

/-- Every record of an index satisfies the link-filter invariant. -/
def IndexOk (idx : LinkGraphIndex) : Prop :=
  ∀ e ∈ idx, LinksOk e.2

/-- The link-filter invariant over the whole system: it holds of the live
index and of every persisted image. -/
def StateOk (s : SysState) : Prop :=
  IndexOk s.index ∧ ∀ i, s.saved = some i → IndexOk i

/-- A state in which `goodUrl` has already been dispatched for crawling. -/
def visitedState : SysState := { initState with visited := [goodUrl] }

/-- A URL whose page links to itself, so that a rank recomputation between
enqueue and drain changes its record. -/
def loopUrl : String := "http://loop"

/-- A one-page index whose page links to itself. -/
def loopIndex : LinkGraphIndex := [(loopUrl, ⟨"Loop", [loopUrl], 0⟩)]

/-- One open viewer is connected, the self-linking page is indexed, and
`broadcast(loopUrl)` has just enqueued its delivery event. -/
def enqueueState : SysState :=
  broadcast { initState with index := loopIndex, clients := [⟨true, []⟩] } loopUrl

/-- The rank engine has fired between the enqueue and the drain tick. -/
def drainState : SysState := { enqueueState with index := recalculateRanks enqueueState.index }

/-- Looking a key up after a map that rewrites each value in a key-dependent
way commutes with the rewrite. -/
theorem lookupRecord_map_keyed (f : String → PageRecord → PageRecord) :
    ∀ (l : LinkGraphIndex) (u : String),
      lookupRecord (l.map (fun e => (e.1, f e.1 e.2))) u = (lookupRecord l u).map (f u)
  | [], _ => rfl
  | e :: rest, u => by
      by_cases h : e.1 = u
      · subst h; simp [lookupRecord]
      · simp [lookupRecord, h, lookupRecord_map_keyed f rest u]

/-- A key present in the index looks up to something. -/
theorem lookupRecord_isSome_of_mem :
    ∀ {idx : LinkGraphIndex} {e : String × PageRecord}, e ∈ idx →
      (lookupRecord idx e.1).isSome = true := by
  intro idx
  induction idx with
  | nil => intro e h; simp at h
  | cons a rest ih =>
      intro e h
      by_cases hb : a.1 = e.1
      · simp [lookupRecord, hb]
      · rcases List.mem_cons.mp h with h1 | h2
        · subst h1; simp [lookupRecord] at hb ⊢
        · simp [lookupRecord, hb, ih h2]

/-- Membership in a list of links is insensitive to duplicates. -/
theorem contains_dedup (l : List String) (u : String) : l.dedup.contains u = l.contains u := by
  by_cases h : u ∈ l <;> simp [List.contains, List.elem_iff, List.mem_dedup, h]

/-- A persisted array of link strings decodes to the original list. -/
theorem strListFromJson_map : ∀ l : List String, strListFromJson (l.map Json.str) = some l
  | [] => rfl
  | s :: rest => by simp [strListFromJson, strListFromJson_map rest]

/-- A persisted PageRecord decodes to the original record. -/
theorem recordFromJson_recordToJson (r : PageRecord) : recordFromJson (recordToJson r) = some r := by
  cases r with
  | mk t links rank => simp [recordToJson, recordFromJson, strListFromJson_map]

/-- The persisted object's fields decode to the original entries. -/
theorem entriesFromJson_map :
    ∀ idx : LinkGraphIndex, entriesFromJson (idx.map (fun e => (e.1, recordToJson e.2))) = some idx
  | [] => rfl
  | e :: rest => by simp [entriesFromJson, recordFromJson_recordToJson, entriesFromJson_map rest]

/-- Every link the extractor keeps starts with "http". -/
theorem extractLinks_mem {p : Page} {l : String} (h : l ∈ extractLinks p) :
    jsStartsWith l httpPrefix = true := by
  rcases List.mem_filterMap.mp h with ⟨a, -, ha⟩
  match a with
  | none => simp at ha
  | some h' =>
      by_cases hs : jsStartsWith h' httpPrefix = true
      · simp [hs] at ha; subst ha; exact hs
      · simp [hs] at ha

/-- The single-pass extraction filter equals dropping missing hrefs and then
filtering on the "http" test, so it keeps discovery order and duplicates. -/
theorem filterHttp_aux : ∀ l : List (Option String),
    (l.filterMap (fun href =>
      match href with
      | none => none
      | some h => if jsStartsWith h httpPrefix then some h else none))
      = (l.filterMap id).filter (fun h => jsStartsWith h httpPrefix)
  | [] => rfl
  | none :: rest => by simp [List.filterMap_cons, filterHttp_aux rest]
  | some h :: rest => by
      by_cases hs : jsStartsWith h httpPrefix = true <;>
        simp [List.filterMap_cons, List.filter_cons, hs, filterHttp_aux rest]

/-- Writing a record whose links passed the filter preserves the index
invariant. -/
theorem putRecord_ok {idx : LinkGraphIndex} {url : String} {r : PageRecord}
    (hidx : IndexOk idx) (hr : LinksOk r) : IndexOk (putRecord idx url r) := by
  unfold putRecord
  split
  · intro e he
    rcases List.mem_map.mp he with ⟨a, ha, rfl⟩
    by_cases h : a.1 = url
    · simpa [h] using hr
    · simpa [h] using hidx a ha
  · intro e he
    rcases List.mem_append.mp he with h1 | h2
    · exact hidx e h1
    · rcases List.mem_singleton.mp h2 with rfl
      exact hr

/-- Folding the recursive fan-out over a link list preserves any property the
single crawl preserves. -/
theorem foldl_crawl_preserve (f : FetchFn) (d : Nat)
    (hc : ∀ url s, StateOk s → StateOk (crawl f d url s)) :
    ∀ (ls : List String) (s : SysState), StateOk s →
      StateOk (ls.foldl (fun st l => crawl f d l st) s)
  | [], _, h => h
  | l :: ls, s, h => foldl_crawl_preserve f d hc ls _ (hc l s h)

/-- The crawler preserves the link-filter invariant over index and persisted
image. -/
theorem crawl_preserves_StateOk (f : FetchFn) :
    ∀ (d : Nat) (url : String) (s : SysState), StateOk s → StateOk (crawl f d url s)
  | 0, _, _, h => h
  | d + 1, url, s, h => by
      by_cases hv : url ∈ s.visited
      · simpa [crawl, hv] using h
      · cases hf : f url with
        | none =>
            simp [crawl, hv, hf]
            exact ⟨h.1, h.2⟩
        | some page =>
            have hrec : LinksOk ⟨extractTitle page, extractLinks page, 0⟩ :=
              fun l hl => extractLinks_mem hl
            have hok : StateOk (broadcast { s with
                visited := s.visited ++ [url],
                index := putRecord s.index url ⟨extractTitle page, extractLinks page, 0⟩,
                saved := some (putRecord s.index url ⟨extractTitle page, extractLinks page, 0⟩),
                fetched := s.fetched ++ [url] } url) := by
              refine ⟨putRecord_ok h.1 hrec, ?_⟩
              intro i hi
              have hi' := Option.some.inj hi
              rw [← hi']
              exact putRecord_ok h.1 hrec
            simp [crawl, hv, hf]
            exact foldl_crawl_preserve f d
              (fun url s hs => crawl_preserves_StateOk f d url s hs) _ _ hok

/-- Draining an empty queue delivers nothing to a client. -/
theorem deliverClient_nil (idx : LinkGraphIndex) (c : Client) : deliverClient idx [] c = c := by
  cases c with
  | mk o r => cases o <;> simp [deliverClient, deliveries]

/-- Sending the head message and then draining the tail equals draining the
whole queue. -/
theorem deliverClient_sendTo (idx : LinkGraphIndex) (u : String) (q : List String) (c : Client) :
    deliverClient idx q (sendTo ⟨u, lookupRecord idx u⟩ c) = deliverClient idx (u :: q) c := by
  cases c with
  | mk o r => cases o <;> simp [deliverClient, deliveries, sendTo]

/-- As many drain ticks as there are queued events empty the queue and hand
every open client the queued messages in order. -/
theorem drainTicks_drains : ∀ (q : List String) (s : SysState), s.broadcastQueue = q →
    drainTicks q.length s =
      { s with broadcastQueue := [], clients := s.clients.map (deliverClient s.index q) }
  | [], s, h => by
      have hnil : ∀ c, deliverClient s.index [] c = c := deliverClient_nil s.index
      cases s with
      | mk v i sa q ib cl er fe =>
          simp at h
          subst h
          simp [drainTicks, List.map_congr_left (fun c _ => hnil c)]
  | u :: rest, s, h => by
      have hstep : drainTick s =
          { s with broadcastQueue := rest,
                   clients := s.clients.map (sendTo ⟨u, lookupRecord s.index u⟩) } := by
        simp [drainTick, h]
      have ih := drainTicks_drains rest (drainTick s) (by rw [hstep])
      calc drainTicks (u :: rest).length s = drainTicks rest.length (drainTick s) := rfl
        _ = { s with broadcastQueue := [],
                     clients := s.clients.map (deliverClient s.index (u :: rest)) } := by
            rw [ih, hstep]
            simp only [List.map_map]
            simp
            intro c _
            exact deliverClient_sendTo s.index u rest c

/-- Claim C1: after `recalculateRanks` runs on a fixed index snapshot, every
indexed URL's rank equals 10 times the number of PageRecords whose `links`
contain it; the membership test is duplicate-insensitive (deduplicating every
page's links changes no backlink count); and on the three-page graph P1→P2,
P2→P3, P3→P2 the resulting ranks are 20 for P2, 10 for P3 and 0 for P1. -/
theorem recalculateRanks_backlink_formula :
    (∀ (idx : LinkGraphIndex) (u : String),
        lookupRecord (recalculateRanks idx) u
          = (lookupRecord idx u).map (fun r => { r with rank := 10 * backlinkCount idx u }))
    ∧ (∀ (idx : LinkGraphIndex) (u : String),
        backlinkCount (idx.map (fun e => (e.1, { e.2 with links := e.2.links.dedup }))) u
          = backlinkCount idx u)
    ∧ lookupRecord (recalculateRanks graph3) ("P2") = some ⟨"t2", ["P3"], 20⟩
    ∧ lookupRecord (recalculateRanks graph3) ("P3") = some ⟨"t3", ["P2"], 10⟩
    ∧ lookupRecord (recalculateRanks graph3) ("P1") = some ⟨"t1", ["P2"], 0⟩ := by
  refine ⟨?_, ?_, by decide, by decide, by decide⟩
  · intro idx u
    exact lookupRecord_map_keyed (fun k r => { r with rank := 10 * backlinkCount idx k }) idx u
  · intro idx u
    unfold backlinkCount
    rw [List.countP_map]
    apply List.countP_congr
    intro e _
    simp [contains_dedup]

/-- Claim C2 (amended): the queue stores only the URL, so the message pushed
to viewers at drain time carries the PageRecord as stored in the index at the
drain tick, not a snapshot taken when `broadcast(url)` was called. -/
theorem drain_sends_current_record :
    (∀ (s : SysState) (url : String),
        broadcast s url =
          { s with broadcastQueue := s.broadcastQueue ++ [url], isBroadcasting := true })
    ∧ ∀ (s : SysState) (u : String) (rest : List String), s.broadcastQueue = u :: rest →
        drainTick s =
          { s with broadcastQueue := rest,
                   clients := s.clients.map (sendTo ⟨u, lookupRecord s.index u⟩) } := by
  refine ⟨fun s url => rfl, fun s u rest h => by simp [drainTick, h]⟩

/-- Counterexample for C2 as stated: at enqueue time the self-linking page's
record has rank 0, but the rank engine fires before the drain tick, and the
message actually delivered carries the rank-10 record — not the snapshot of
the record at the moment `broadcast(url)` was called. -/
theorem broadcast_snapshot_counterexample :
    lookupRecord enqueueState.index loopUrl = some ⟨"Loop", [loopUrl], 0⟩
    ∧ (drainTick drainState).clients = [⟨true, [⟨loopUrl, some ⟨"Loop", [loopUrl], 10⟩⟩]⟩]
    ∧ some (⟨"Loop", [loopUrl], 10⟩ : PageRecord) ≠ lookupRecord enqueueState.index loopUrl := by
  refine ⟨by decide, by decide, by decide⟩

/-- Claim C3: persistence round-trips — serializing any in-memory index to
the durable JSON document and parsing it back yields the same keys in the
same order with the same title, links and rank per URL. -/
theorem load_save_roundtrip (idx : LinkGraphIndex) : loadIndex (saveIndex idx) = some idx := by
  simp [loadIndex, saveIndex, entriesFromJson_map]

/-- Claim C4: `crawl(url, 0)` is a no-op — it changes no component of the
system state: no fetch, no PageRecord, no save, no delivery event, and the
URL is not added to the visited set. -/
theorem crawl_depth_zero_noop (f : FetchFn) (url : String) (s : SysState) :
    crawl f 0 url s = s := rfl

/-- Claim C5: once a URL is in the visited set, any further `crawl(url, d)`
call leaves the whole system state unchanged: no fetch, no index or document
mutation, no delivery event. -/
theorem crawl_visited_noop (f : FetchFn) (d : Nat) (url : String) (s : SysState)
    (h : url ∈ s.visited) : crawl f d url s = s := by
  cases d with
  | zero => rfl
  | succ d => simp [crawl, h]

/-- Witness for C5: re-crawling the already-visited reachable URL at depth 3
changes nothing. -/
theorem crawl_visited_noop_witness :
    crawl soloFetch 3 goodUrl visitedState = visitedState :=
  crawl_visited_noop soloFetch 3 goodUrl visitedState (by decide)

/-- Claim C6: a failing fetch only marks the URL visited and logs it — no
PageRecord, no save, no delivery event, no links followed, and the call
returns normally; concretely, crawling the demo seed (one reachable and one
unreachable link) at depth 2 completes with the seed and the reachable URL
indexed, the unreachable URL absent from the index and logged as the only
error. -/
theorem crawl_fetch_failure_isolated :
    (∀ (f : FetchFn) (d : Nat) (url : String) (s : SysState), url ∉ s.visited → f url = none →
        crawl f (d + 1) url s =
          { s with visited := s.visited ++ [url], fetched := s.fetched ++ [url],
                   errors := s.errors ++ [url] })
    ∧ (lookupRecord (crawl demoFetch 2 seedUrl initState).index goodUrl).isSome = true
    ∧ lookupRecord (crawl demoFetch 2 seedUrl initState).index badUrl = none
    ∧ (crawl demoFetch 2 seedUrl initState).errors = [badUrl]
    ∧ (lookupRecord (crawl demoFetch 2 seedUrl initState).index seedUrl).isSome = true := by
  refine ⟨?_, by decide, by decide, by decide, by decide⟩
  intro f d url s hv hf
  simp [crawl, hv, hf]

/-- Claim C7: registering a viewer appends its channel and replays one
message per indexed URL — exactly N messages for an index of N records, whose
URLs are the index keys in order, each carrying the stored record, never
null. -/
theorem replay_completeness :
    (∀ (s : SysState) (c : Client),
        handleConnection s c =
          { s with clients :=
              s.clients ++ [{ c with received := c.received ++ replayMessages s.index c.isOpen }] })
    ∧ ∀ idx : LinkGraphIndex,
        (replayMessages idx true).length = idx.length
        ∧ (replayMessages idx true).map Msg.url = idx.map Prod.fst
        ∧ ∀ m ∈ replayMessages idx true, m.data = lookupRecord idx m.url ∧ m.data ≠ none := by
  refine ⟨fun s c => rfl, fun idx => ⟨by simp [replayMessages], by simp [replayMessages], ?_⟩⟩
  intro m hm
  simp only [replayMessages, if_pos rfl] at hm
  rcases List.mem_map.mp hm with ⟨e, he, rfl⟩
  refine ⟨rfl, ?_⟩
  have hs := lookupRecord_isSome_of_mem he
  simpa [Option.isSome_iff_ne_none] using hs

/-- Claim C8: with K events queued and no further activity, K drain ticks
empty the queue and hand every open viewer exactly the K messages in FIFO
enqueue order; each tick pops at most one event (the queue becomes its tail);
closed viewers are skipped; ticks on an empty queue deliver nothing. -/
theorem drain_cadence :
    (∀ s : SysState,
        drainTicks s.broadcastQueue.length s =
          { s with broadcastQueue := [],
                   clients := s.clients.map (deliverClient s.index s.broadcastQueue) })
    ∧ (∀ s : SysState, (drainTick s).broadcastQueue = s.broadcastQueue.tail)
    ∧ (∀ (m : Msg) (c : Client), c.isOpen = false → sendTo m c = c)
    ∧ (∀ (idx : LinkGraphIndex) (q : List String) (c : Client), c.isOpen = true →
        (deliverClient idx q c).received = c.received ++ deliveries idx q
          ∧ (deliveries idx q).length = q.length)
    ∧ (∀ s : SysState, s.broadcastQueue = [] → drainTick s = { s with isBroadcasting := false }) := by
  refine ⟨?_, ?_, ?_, ?_, ?_⟩
  · intro s; exact drainTicks_drains s.broadcastQueue s rfl
  · intro s
    cases hq : s.broadcastQueue <;> simp [drainTick, hq]
  · intro m c h; simp [sendTo, h]
  · intro idx q c h; exact ⟨by simp [deliverClient, h], by simp [deliveries]⟩
  · intro s h; simp [drainTick, h]

/-- Claim C9: startup with no durable document yields the empty index and a
warning; a document that fails to parse is logged and non-fatal and resets
the index to empty; in both cases crawling then proceeds normally — from the
reset empty index a crawl still indexes pages. -/
theorem startup_load_recovery :
    startupLoad none = ([], [msgNotFound])
    ∧ startupLoad (some none) = ([], [msgLoadError])
    ∧ (lookupRecord (crawl soloFetch 1 goodUrl
        ⟨[], (startupLoad (some none)).1, none, [], false, [], [], []⟩).index goodUrl).isSome
        = true := by
  refine ⟨rfl, rfl, by decide⟩

/-- Claim C10: every link the crawler keeps starts with "http" (anchors with
a missing or non-http href are dropped, kept hrefs preserve discovery order
and duplicates), the whole-system invariant — every record in the index and
in every persisted document has only http links — is preserved by every
crawl, and every record handed out by a lookup (hence every replayed or
drained message body) satisfies it. -/
theorem crawl_links_http_invariant :
    (∀ (p : Page) (l : String), l ∈ extractLinks p → jsStartsWith l httpPrefix = true)
    ∧ (∀ p : Page,
        extractLinks p = (p.anchors.filterMap id).filter (fun h => jsStartsWith h httpPrefix))
    ∧ (∀ (f : FetchFn) (d : Nat) (url : String) (s : SysState), StateOk s → StateOk (crawl f d url s))
    ∧ (∀ (idx : LinkGraphIndex) (u : String) (r : PageRecord),
        IndexOk idx → lookupRecord idx u = some r → LinksOk r) := by
  refine ⟨fun p l h => extractLinks_mem h, fun p => filterHttp_aux p.anchors,
    fun f d url s h => crawl_preserves_StateOk f d url s h, ?_⟩
  intro idx u r hidx hl
  induction idx with
  | nil => simp [lookupRecord] at hl
  | cons a rest ih =>
      by_cases h : a.1 = u
      · simp [lookupRecord, h] at hl
        subst hl
        exact hidx a (List.mem_cons_self a rest)
      · simp [lookupRecord, h] at hl
        exact ih (fun e he => hidx e (List.mem_cons_of_mem a he)) hl
